import Mathlib

/-!  Verification of the JSON-recovery parser, the tabular conversion and the
LLM provider-fallback logic of the test-generation framework
(`src/excel_handler.py` and `src/llm_client.py`).

Python strings are modelled as `List Char`, Python dicts as association
lists.  `json.loads` (the Python standard-library JSON parser used by the
recovery scanner) is modelled by `jsonLoadsL` below, restricted to integer
numeric literals: the framework's test-case records carry no floating-point
values, and a numeric literal with a fraction or exponent makes the model
reject the document rather than mis-read it.  -/

/-- JSON values as produced by `json.loads`.  Object members are kept in
textual order.  -/
inductive Json where
  | null : Json
  | bool (b : Bool) : Json
  | num (n : Int) : Json
  | str (s : String) : Json
  | arr (elems : List Json) : Json
  | obj (members : List (String × Json)) : Json

/-- The opening-brace character, written via its code point. -/
def lbrace : Char := '\x7b'

/-- The closing-brace character, written via its code point. -/
def rbrace : Char := '\x7d'

/-- JSON inter-token whitespace accepted by `json.loads`. -/
def isJsonWs (c : Char) : Bool :=
  c = ' ' || c = '\t' || c = '\n' || c = '\r'

/-- Skip JSON whitespace. -/
def jsonSkipWs (cs : List Char) : List Char :=
  cs.dropWhile isJsonWs

/-- Value of one hexadecimal digit, for `\uXXXX` escapes. -/
def hexVal (c : Char) : Option Nat :=
  if '0' ≤ c ∧ c ≤ '9' then some (c.toNat - 48)
  else if 'a' ≤ c ∧ c ≤ 'f' then some (c.toNat - 87)
  else if 'A' ≤ c ∧ c ≤ 'F' then some (c.toNat - 55)
  else none

/-- Parse the body of a JSON string literal (the opening quote already
consumed); returns the decoded characters and the input past the closing
quote.  Mirrors `json.loads` strict mode: raw control characters and
unknown escapes are rejected.  -/
def parseJString : Nat → List Char → Option (List Char × List Char)
  | 0, _ => none
  | _ + 1, [] => none
  | fuel + 1, c :: cs =>
    if c = '"' then some ([], cs)
    else if c = '\\' then
      match cs with
      | [] => none
      | e :: cs' =>
        if e = '"' then (parseJString fuel cs').map (fun p => ('"' :: p.1, p.2))
        else if e = '\\' then (parseJString fuel cs').map (fun p => ('\\' :: p.1, p.2))
        else if e = '/' then (parseJString fuel cs').map (fun p => ('/' :: p.1, p.2))
        else if e = 'b' then (parseJString fuel cs').map (fun p => ('\x08' :: p.1, p.2))
        else if e = 'f' then (parseJString fuel cs').map (fun p => ('\x0c' :: p.1, p.2))
        else if e = 'n' then (parseJString fuel cs').map (fun p => ('\n' :: p.1, p.2))
        else if e = 'r' then (parseJString fuel cs').map (fun p => ('\r' :: p.1, p.2))
        else if e = 't' then (parseJString fuel cs').map (fun p => ('\t' :: p.1, p.2))
        else if e = 'u' then
          match cs' with
          | h1 :: h2 :: h3 :: h4 :: cs'' =>
            match hexVal h1, hexVal h2, hexVal h3, hexVal h4 with
            | some a, some b, some c2, some d =>
              (parseJString fuel cs'').map
                (fun p => (Char.ofNat (a * 4096 + b * 256 + c2 * 16 + d) :: p.1, p.2))
            | _, _, _, _ => none
          | _ => none
        else none
    else if c.toNat < 32 then none
    else (parseJString fuel cs).map (fun p => (c :: p.1, p.2))

/-- Parse a JSON integer literal (sign and digits); a fraction, an exponent
or a leading zero is rejected (`json.loads` rejects leading zeros; the model
does not cover floating-point literals).  -/
def parseJNumber (cs : List Char) : Option (Int × List Char) :=
  let (neg, cs1) :=
    match cs with
    | '-' :: t => (true, t)
    | _ => (false, cs)
  let ds := cs1.takeWhile Char.isDigit
  let rest := cs1.dropWhile Char.isDigit
  if ds = [] then none
  else if 1 < ds.length ∧ ds.head? = some '0' then none
  else
    match rest with
    | c :: _ =>
      if c = '.' ∨ c = 'e' ∨ c = 'E' then none
      else
        let n : Int := Int.ofNat (ds.foldl (fun n d => n * 10 + (d.toNat - 48)) 0)
        some (if neg then -n else n, rest)
    | [] =>
      let n : Int := Int.ofNat (ds.foldl (fun n d => n * 10 + (d.toNat - 48)) 0)
      some (if neg then -n else n, rest)

mutual

/-- Parse one JSON value starting at the first non-consumed character.  -/
def parseJValue : Nat → List Char → Option (Json × List Char)
  | 0, _ => none
  | fuel + 1, cs =>
    match cs with
    | [] => none
    | c :: rest =>
      if c = lbrace then
        match jsonSkipWs rest with
        | d :: r2 =>
          if d = rbrace then some (Json.obj [], r2)
          else (parseJMembers fuel (d :: r2)).map (fun p => (Json.obj p.1, p.2))
        | [] => none
      else if c = '[' then
        match jsonSkipWs rest with
        | ']' :: r2 => some (Json.arr [], r2)
        | r1 => (parseJElems fuel r1).map (fun p => (Json.arr p.1, p.2))
      else if c = '"' then
        (parseJString (rest.length + 1) rest).map (fun p => (Json.str (String.mk p.1), p.2))
      else
        match cs with
        | 't' :: 'r' :: 'u' :: 'e' :: r => some (Json.bool true, r)
        | 'f' :: 'a' :: 'l' :: 's' :: 'e' :: r => some (Json.bool false, r)
        | 'n' :: 'u' :: 'l' :: 'l' :: r => some (Json.null, r)
        | _ => (parseJNumber cs).map (fun p => (Json.num p.1, p.2))

/-- Parse the members of a JSON object (after the opening brace and leading
whitespace), up to and including the closing brace.  -/
def parseJMembers : Nat → List Char → Option (List (String × Json) × List Char)
  | 0, _ => none
  | fuel + 1, cs =>
    match cs with
    | '"' :: rest =>
      match parseJString (rest.length + 1) rest with
      | none => none
      | some (k, r1) =>
        match jsonSkipWs r1 with
        | ':' :: r2 =>
          match parseJValue fuel (jsonSkipWs r2) with
          | none => none
          | some (v, r3) =>
            match jsonSkipWs r3 with
            | ',' :: r4 =>
              (parseJMembers fuel (jsonSkipWs r4)).map
                (fun p => ((String.mk k, v) :: p.1, p.2))
            | d :: r4 =>
              if d = rbrace then some ([(String.mk k, v)], r4) else none
            | [] => none
        | _ => none
    | _ => none

/-- Parse the elements of a JSON array (after the opening bracket and
leading whitespace), up to and including the closing bracket.  -/
def parseJElems : Nat → List Char → Option (List Json × List Char)
  | 0, _ => none
  | fuel + 1, cs =>
    match parseJValue fuel cs with
    | none => none
    | some (v, r1) =>
      match jsonSkipWs r1 with
      | ',' :: r2 => (parseJElems fuel (jsonSkipWs r2)).map (fun p => (v :: p.1, p.2))
      | ']' :: r2 => some ([v], r2)
      | _ => none

end

/-- Model of `json.loads` on a character list: one JSON document with
optional surrounding whitespace; anything else fails (returns `none` where
Python raises `json.JSONDecodeError`).  -/
def jsonLoadsL (cs : List Char) : Option Json :=
  let cs' := jsonSkipWs cs
  match parseJValue (cs'.length + 1) cs' with
  | some (v, r) => if jsonSkipWs r = [] then some v else none
  | none => none

/-!  ## The recovery scanner (`ExcelHandler._extract_complete_objects`)

The Python loop keeps an integer brace-depth counter, accumulates
characters into a buffer while the depth is positive, and whenever a
closing brace returns the depth to zero feeds the buffer to `json.loads`,
appending the value on success and silently discarding the buffer on
failure.  -/

/-- The mutable state of the scanning loop: the depth counter, the
character buffer and the objects collected so far.  -/
structure ScanSt where
  depth : Int
  buffer : List Char
  objects : List Json

/-- One iteration of the `for ch in array_text` loop of
`_extract_complete_objects`: the depth rises on an opening brace before
the accumulation test, and falls on a closing brace after it.  -/
def scanStep (st : ScanSt) (ch : Char) : ScanSt :=
  let d1 := if ch = lbrace then st.depth + 1 else st.depth
  let buf1 := if 0 < d1 then st.buffer ++ [ch] else st.buffer
  if ch = rbrace then
    let d2 := d1 - 1
    if d2 = 0 then
      match jsonLoadsL buf1 with
      | some v => ⟨d2, [], st.objects ++ [v]⟩
      | none => ⟨d2, [], st.objects⟩
    else ⟨d2, buf1, st.objects⟩
  else ⟨d1, buf1, st.objects⟩

/-- Run the scanning loop over the remaining characters. -/
def scanChars (st : ScanSt) : List Char → ScanSt
  | [] => st
  | c :: cs => scanChars (scanStep st c) cs

/-- `ExcelHandler._extract_complete_objects`: extract the fully closed
JSON objects from the body of an array.  -/
def extract_complete_objectsL (array_text : List Char) : List Json :=
  (scanChars ⟨0, [], []⟩ array_text).objects

/-!  ## Markdown stripping, array location and merging

`_strip_markdown` uses `str.strip`; `_extract_array` uses
`re.search(r'"key"\s*:\s*\[(.*)', text, re.DOTALL)` whose greedy group
takes everything after the first `[` that completes the leftmost match;
`_merge_json_outputs` joins with a newline after trimming each side.  -/

/-- ASCII whitespace as removed by `str.strip` / matched by `\s`. -/
def isPyWs (c : Char) : Bool :=
  c = ' ' || c = '\t' || c = '\n' || c = '\r' || c = '\x0b' || c = '\x0c'

/-- `str.lstrip()`. -/
def pyLStripL (cs : List Char) : List Char :=
  cs.dropWhile isPyWs

/-- `str.rstrip()`. -/
def pyRStripL (cs : List Char) : List Char :=
  (cs.reverse.dropWhile isPyWs).reverse

/-- `str.strip()`. -/
def pyStripL (cs : List Char) : List Char :=
  pyRStripL (pyLStripL cs)

/-- Does the text start with a triple-backtick fence? -/
def startsWithFence (cs : List Char) : Bool :=
  match cs with
  | '`' :: '`' :: '`' :: _ => true
  | _ => false

/-- Does the text contain a triple-backtick fence anywhere? -/
def containsFence : List Char → Bool
  | [] => false
  | c :: rest => startsWithFence (c :: rest) || containsFence rest

/-- `text.rsplit(sep, 1)[0]` for the fence separator: everything before
the last fence, or the whole text when no fence occurs.  -/
def beforeLastFence : List Char → List Char
  | [] => []
  | c :: rest =>
    if containsFence rest then c :: beforeLastFence rest
    else if startsWithFence (c :: rest) then []
    else c :: beforeLastFence rest

/-- `ExcelHandler._strip_markdown`: trim, and when the text starts with a
code fence drop it and everything from the last fence on, then trim
again.  -/
def stripMarkdownL (text : List Char) : List Char :=
  let t := pyStripL text
  if startsWithFence t then pyStripL (beforeLastFence (t.drop 3))
  else t

/-- Match a literal character sequence at the start of the input,
returning the remainder on success.  -/
def matchChars : List Char → List Char → Option (List Char)
  | [], cs => some cs
  | _ :: _, [] => none
  | p :: ps, c :: cs => if c = p then matchChars ps cs else none

/-- Try to match `"key"\s*:\s*\[` at the start of `cs`; on success return
what follows the opening bracket (the regex group `(.*)` with `re.DOTALL`
is greedy, so the group is the entire remainder).  -/
def matchKeyPattern (key : List Char) (cs : List Char) : Option (List Char) :=
  match cs with
  | '"' :: cs1 =>
    match matchChars key cs1 with
    | none => none
    | some r0 =>
      match r0 with
      | '"' :: r1 =>
        match (r1.dropWhile isPyWs) with
        | ':' :: r3 =>
          match (r3.dropWhile isPyWs) with
          | '[' :: r5 => some r5
          | _ => none
        | _ => none
      | _ => none
  | _ => none

/-- `re.search`: try the pattern at every position, leftmost match wins. -/
def searchKeyPattern (key : List Char) : List Char → Option (List Char)
  | [] => none
  | c :: rest =>
    match matchKeyPattern key (c :: rest) with
    | some r => some r
    | none => searchKeyPattern key rest

/-- `ExcelHandler._extract_array`: locate the array under `key` and run
the recovery scanner on its (unbounded) body; no match yields `[]`.  -/
def extract_arrayL (text : List Char) (key : List Char) : List Json :=
  match searchKeyPattern key text with
  | none => []
  | some body => extract_complete_objectsL body

/-- `ExcelHandler._merge_json_outputs`. -/
def merge_json_outputsL (original continuation : List Char) : List Char :=
  pyRStripL original ++ '\n' :: pyLStripL continuation

/-- The key of the UI-test array. -/
def testCasesKey : List Char := "test_cases".data

/-- The key of the API-test array. -/
def apiTestsKey : List Char := "api_tests".data

/-!  ## `ExcelHandler._parse_with_retry`

The Python loop `for attempt in range(2)` is unrolled: the first pass
extracts both arrays and returns when either is non-empty; otherwise, when
a continuation callback is configured, it is invoked once (an exception it
raises is caught and ends the loop), its output is merged onto the current
buffer and the extraction runs once more; the second pass returns whatever
it finds (when no merge happened the second iteration re-extracts the same
text with the same empty outcome).  A callback is modelled as a function
into `Except Unit`, `Except.error` standing for a raised exception.  The
`callback_calls` field counts the callback invocations so that the
retry-once contract is itself a statement of the model; every raise site
inside the parser (`json.loads`, the callback) is wrapped in
`try`/`except` in the source, which is why the model is a total
function.  -/

/-- A continuation callback: Python `Callable[[str], str]` that may raise. -/
def JsonContinueCallback : Type := List Char → Except Unit (List Char)

/-- The outcome of `_parse_with_retry` together with the number of times
the continuation callback was invoked.  -/
structure ParseOutcome where
  test_cases : List Json
  api_tests : List Json
  callback_calls : Nat

/-- `ExcelHandler._parse_with_retry`, instrumented with the callback
count.  -/
def parse_with_retry_traced (cb : Option JsonContinueCallback) (raw_json : List Char) :
    ParseOutcome :=
  let r0 := stripMarkdownL raw_json
  let tc := extract_arrayL r0 testCasesKey
  let ats := extract_arrayL r0 apiTestsKey
  if tc.isEmpty && ats.isEmpty then
    match cb with
    | none => ⟨[], [], 0⟩
    | some f =>
      match f r0 with
      | Except.error _ => ⟨[], [], 1⟩
      | Except.ok continuation =>
        let r1 := merge_json_outputsL r0 continuation
        let tc1 := extract_arrayL r1 testCasesKey
        let ats1 := extract_arrayL r1 apiTestsKey
        if tc1.isEmpty && ats1.isEmpty then ⟨[], [], 1⟩ else ⟨tc1, ats1, 1⟩
  else ⟨tc, ats, 0⟩

/-- `ExcelHandler._parse_with_retry`: the two extracted lists. -/
def parse_with_retry (cb : Option JsonContinueCallback) (raw_json : List Char) :
    List Json × List Json :=
  ((parse_with_retry_traced cb raw_json).test_cases,
   (parse_with_retry_traced cb raw_json).api_tests)

/-!  ## Filtering and the tabular artifact

`_filter_valid` keeps the records containing every required field.  The
tabular layer (`pandas` / `openpyxl`) is modelled at the value level: a
sheet holds the column list and a cell matrix, a missing cell is `none`
(NaN), `pd.DataFrame(rows)` takes the union of the row keys in order of
first appearance, and reading applies `fillna("")` and returns each row as
an ordered field-to-value mapping.  -/

/-- `ExcelHandler.REQUIRED_TEST_FIELDS`. -/
def REQUIRED_TEST_FIELDS : List String :=
  ["test_id", "description", "steps", "expected_result"]

/-- `ExcelHandler.REQUIRED_API_FIELDS`. -/
def REQUIRED_API_FIELDS : List String :=
  ["test_id", "method", "url", "expected_status"]

/-- Python `field in item` for a parsed record (the scanner only ever
yields objects, since every buffer handed to `json.loads` starts with an
opening brace).  -/
def hasField (item : Json) (field : String) : Bool :=
  match item with
  | Json.obj members => (members.map Prod.fst).contains field
  | _ => false

/-- `ExcelHandler._filter_valid`: the accumulating loop keeping items that
contain all required fields.  -/
def filter_valid (items : List Json) (required_fields : List String) : List Json :=
  match items with
  | [] => []
  | item :: rest =>
    if required_fields.all (fun field => hasField item field) then
      item :: filter_valid rest required_fields
    else filter_valid rest required_fields

/-- A Python dict with JSON values, in insertion order. -/
def PyDict : Type := List (String × Json)

/-- The members of a parsed record (always an object, see `hasField`). -/
def dictOf (j : Json) : PyDict :=
  match j with
  | Json.obj members => members
  | _ => []

/-- Add a key at the end unless already present. -/
def insertKey (acc : List String) (k : String) : List String :=
  if acc.contains k then acc else acc ++ [k]

/-- Column set of `pd.DataFrame(rows)`: union of the row keys in order of
first appearance.  -/
def unionKeys (rows : List PyDict) : List String :=
  rows.foldl (fun acc r => (r.map Prod.fst).foldl insertKey acc) []

/-- One sheet of the workbook: columns and the cell matrix; `none` is a
missing cell (NaN).  -/
structure Sheet where
  columns : List String
  cells : List (List (Option Json))

/-- `ExcelHandler._write_sheet`: a non-empty row list becomes
`pd.DataFrame(rows)`; an empty one becomes an empty frame that still
carries the required column headers.  -/
def write_sheet (rows : List PyDict) (columns : List String) : Sheet :=
  if rows.isEmpty then ⟨columns, []⟩
  else
    let cols := unionKeys rows
    ⟨cols, rows.map (fun r => cols.map (fun c => r.lookup c))⟩

/-- The single output artifact: the two named tables written by
`json_to_excel`.  -/
structure Workbook where
  test_cases : Sheet
  api_tests : Sheet

/-- The state of the output path: `none` when no artifact exists. -/
structure FileSystem where
  artifact : Option Workbook

/-- `ExcelHandler.__init__`'s effect on the output path: any pre-existing
artifact is removed (`os.remove` guarded by `os.path.exists`).  -/
def excel_handler_init (_fs : FileSystem) : FileSystem := ⟨none⟩

/-- The workbook produced by one `json_to_excel` call. -/
def write_workbook (tc ats : List PyDict) : Workbook :=
  ⟨write_sheet tc REQUIRED_TEST_FIELDS, write_sheet ats REQUIRED_API_FIELDS⟩

/-- `ExcelHandler.json_to_excel`: reject empty or whitespace-only input,
parse with retry, filter each list by its required fields, reject when both
filtered lists are empty, otherwise write the two sheets (the
`pd.ExcelWriter` context opens the path in full-replace mode, so the new
artifact does not depend on the previous file system state) and return the
output path.  `Except.error` carries the `ValueError` message.  -/
def json_to_excelF (cb : Option JsonContinueCallback) (_fs : FileSystem)
    (output_path : String) (llm_output : List Char) :
    Except String (FileSystem × String) :=
  if llm_output = [] ∨ pyStripL llm_output = [] then
    Except.error ("LLM returned empty output")
  else
    let parsed := parse_with_retry cb llm_output
    let tc := filter_valid parsed.1 REQUIRED_TEST_FIELDS
    let ats := filter_valid parsed.2 REQUIRED_API_FIELDS
    if tc.isEmpty && ats.isEmpty then
      Except.error ("No valid test cases found after recovery")
    else
      Except.ok (⟨some (write_workbook (tc.map dictOf) (ats.map dictOf))⟩, output_path)

/-- `fillna("")` followed by `to_dict("records")` on one sheet: every row
becomes the ordered column-to-value mapping with missing cells replaced by
the empty string.  -/
def sheetRecords (sh : Sheet) : List PyDict :=
  sh.cells.map (fun row =>
    (sh.columns.zip row).map (fun p => (p.1, p.2.getD (Json.str ""))))

/-- `ExcelHandler.read_test_cases`: fail when the artifact does not exist,
otherwise load both tables.  -/
def read_test_casesF (fs : FileSystem) : Except String (List PyDict × List PyDict) :=
  match fs.artifact with
  | none => Except.error ("Excel not found")
  | some wb => Except.ok (sheetRecords wb.test_cases, sheetRecords wb.api_tests)

/-- The row produced by reading back one written record, given the sheet's
column list.  -/
def readRowOf (cols : List String) (r : PyDict) : PyDict :=
  cols.map (fun c => (c, (r.lookup c).getD (Json.str "")))

/-!  ## The LLM client (`src/llm_client.py`)

Only the configuration shape consulted by `_resolve_provider_order` is
modelled: per-provider entries that may carry an `enabled` flag, and the
optional `models.preferred` name.  A provider adapter is abstracted as the
outcome of calling its `generate_with_*` method: text, or a raised error
message (every adapter wraps its failures in `RuntimeError(...)`).  -/

/-- One entry of the `models` configuration section; `enabled` is `none`
when the key is absent.  -/
structure ProviderEntry where
  enabled : Option Bool

/-- The `models` configuration section: the provider entries (a name not
present in the configuration maps to `none`) and the `preferred` key.  -/
structure ModelsCfg where
  entries : String → Option ProviderEntry
  preferred : Option String

/-- `is_enabled` inside `_resolve_provider_order`:
`models_cfg.get(name, \x7b\x7d).get("enabled", True)` — a provider absent
from the configuration, or present without the flag, counts as enabled.  -/
def is_enabled (cfg : ModelsCfg) (name : String) : Bool :=
  match cfg.entries name with
  | none => true
  | some e => e.enabled.getD true

/-- Step 1 of `_resolve_provider_order`: the explicitly passed preferred
provider, when truthy and enabled.  -/
def explicit_pref (cfg : ModelsCfg) (preferred_provider : Option String) : List String :=
  match preferred_provider with
  | some p => if p ≠ "" ∧ is_enabled cfg p then [p] else []
  | none => []

/-- Step 2 of `_resolve_provider_order`: append the configuration's
preferred provider when truthy, not `"auto"`, enabled and not already
listed.  -/
def with_cfg_pref (cfg : ModelsCfg) (base : List String) : List String :=
  match cfg.preferred with
  | some cp =>
    if cp ≠ "" ∧ cp ≠ "auto" ∧ is_enabled cfg cp ∧ cp ∉ base then base ++ [cp]
    else base
  | none => base

/-- The fixed default fallback sequence of `_resolve_provider_order`. -/
def defaultOrder : List String := ["ollama", "gemini", "openai", "deepseek"]

/-- `LLMClient._resolve_provider_order`. -/
def resolve_provider_order (cfg : ModelsCfg) (preferred_provider : Option String) :
    List String :=
  defaultOrder.foldl
    (fun acc p => if is_enabled cfg p ∧ p ∉ acc then acc ++ [p] else acc)
    (with_cfg_pref cfg (explicit_pref cfg preferred_provider))

/-- The provider names recognised by the dispatch chain of
`generate_with_fallback`.  -/
def knownProviders : List String := ["openai", "gemini", "ollama", "deepseek"]

/-- Is the name handled by one of the four dispatch branches? -/
def isKnown (p : String) : Bool := knownProviders.contains p

/-- One line of the failure report: `f"- \x7bprovider\x7d: \x7berror\x7d"`. -/
def error_lineL (provider error : String) : List Char :=
  "- ".data ++ provider.data ++ ": ".data ++ error.data

/-- `"\n".join(...)` over the failure lines. -/
def error_reportL : List (String × String) → List Char
  | [] => []
  | [pe] => error_lineL pe.1 pe.2
  | pe :: rest => error_lineL pe.1 pe.2 ++ '\n' :: error_reportL rest

/-- The fixed guidance text of the aggregate failure message. -/
def actionsGuidance : List Char :=
  ("Actions:\n- Verify API keys\n" ++
   "- Check Ollama installation / model availability if enabled\n" ++
   "- Switch provider in config.yaml").data

/-- The aggregate `RuntimeError` message raised when every provider
failed.  -/
def aggregate_errorL (errors : List (String × String)) : List Char :=
  "All LLM providers failed.\n\nTried providers:\n".data ++
    error_reportL errors ++ ("\n\n".data ++ actionsGuidance)

/-- The `for provider in providers` loop of `generate_with_fallback`:
`adapters` maps each known provider name to the outcome of its
`generate_with_*` call (`Except.error` standing for the exception caught
by the loop); an unrecognised name falls into the `else` branch, which
only logs.  When the loop exhausts the candidates a single aggregate
`RuntimeError` is raised.  -/
def tryProviders (adapters : String → Except String String) :
    List String → List (String × String) → Except (List Char) String
  | [], errors => Except.error (aggregate_errorL errors)
  | p :: rest, errors =>
    if isKnown p then
      match adapters p with
      | Except.ok text => Except.ok text
      | Except.error e => tryProviders adapters rest (errors ++ [(p, e)])
    else tryProviders adapters rest errors

/-- `LLMClient.generate_with_fallback`. -/
def generate_with_fallback (cfg : ModelsCfg) (preferred_provider : Option String)
    (adapters : String → Except String String) : Except (List Char) String :=
  tryProviders adapters (resolve_provider_order cfg preferred_provider) []

/-!  ## Segment structure of an array body (for claim C1)

An array body is viewed as a concatenation of segments: well-formed
object texts, malformed fragments, and possibly one trailing truncated
fragment.  `braceSum` is the net brace depth of a character sequence, the
quantity tracked by the scanner.  -/

/-- Contribution of one character to the brace-depth counter. -/
def braceDelta (c : Char) : Int :=
  if c = lbrace then 1 else if c = rbrace then -1 else 0

/-- Net brace depth of a character sequence. -/
def braceSum (cs : List Char) : Int :=
  (cs.map braceDelta).sum

/-- A well-formed object text as seen by the scanner: it starts with an
opening brace, its brace depth stays positive strictly inside, returns to
zero exactly at its end, and `json.loads` accepts it, yielding `v`.
A serialised JSON object none of whose strings contains a brace character
has this shape.  -/
def GoodSeg (s : List Char) (v : Json) : Prop :=
  s.head? = some lbrace ∧
  (∀ i : Nat, i < s.length → 0 < i → 0 < braceSum (s.take i)) ∧
  braceSum s = 0 ∧
  jsonLoadsL s = some v

/-- A malformed object-like text with the same brace shape as a
well-formed one — opening brace, depth positive strictly inside, zero
exactly at the end — that `json.loads` rejects: the scanner closes its
buffer, the parse fails, and the buffer is silently discarded (the
spec's recoverable-by-discard case).  -/
def DiscardSeg (s : List Char) : Prop :=
  s.head? = some lbrace ∧
  (∀ i : Nat, i < s.length → 0 < i → 0 < braceSum (s.take i)) ∧
  braceSum s = 0 ∧
  jsonLoadsL s = none

/-- A malformed fragment containing no brace characters (separators,
stray text): invisible to the depth counter.  -/
def BadSeg (s : List Char) : Prop :=
  lbrace ∉ s ∧ rbrace ∉ s

/-- A trailing truncated fragment: its brace depth becomes positive at
its first character and never returns to zero, so the scanner accumulates
it to the end of the input without ever closing an object.  -/
def TruncSeg (s : List Char) : Prop :=
  ∀ i : Nat, i < s.length + 1 → 0 < i → 0 < braceSum (s.take i)

/-- `Extracts cs objs`: the array body `cs` is a concatenation of
well-formed object texts (loading to `objs`, in order), brace-balanced
malformed objects that the scanner closes and discards, brace-free
malformed fragments, and at most one trailing truncated fragment.  -/
inductive Extracts : List Char → List Json → Prop
  | nil : Extracts [] []
  | bad (s rest : List Char) (objs : List Json) :
      BadSeg s → Extracts rest objs → Extracts (s ++ rest) objs
  | discard (s rest : List Char) (objs : List Json) :
      DiscardSeg s → Extracts rest objs → Extracts (s ++ rest) objs
  | good (s : List Char) (v : Json) (rest : List Char) (objs : List Json) :
      GoodSeg s v → Extracts rest objs → Extracts (s ++ rest) (v :: objs)
  | trunc (s : List Char) : TruncSeg s → Extracts s []

/-- Is the value a JSON object? -/
def Json.isObj : Json → Bool
  | Json.obj _ => true
  | _ => false

/-- Claim C1 exactly as stated: the array body is a concatenation of
well-formed JSON object texts (in the sense of `json.loads`) and arbitrary
non-empty malformed fragments (texts `json.loads` rejects), and the claim
asserts the scanner returns precisely the well-formed objects in order.  -/
inductive ClaimedSegs : List Char → List Json → Prop
  | nil : ClaimedSegs [] []
  | bad (s rest : List Char) (objs : List Json) :
      s ≠ [] → jsonLoadsL s = none → ClaimedSegs rest objs →
      ClaimedSegs (s ++ rest) objs
  | good (s : List Char) (v : Json) (rest : List Char) (objs : List Json) :
      jsonLoadsL s = some v → v.isObj = true → ClaimedSegs rest objs →
      ClaimedSegs (s ++ rest) (v :: objs)

/-- `needle` occurs contiguously inside `hay`. -/
def ContainsSeg (needle hay : List Char) : Prop :=
  ∃ pre post, hay = pre ++ (needle ++ post)

/-!  ## Behaviour of the scanner on structured array bodies  -/

lemma braceSum_nil : braceSum [] = 0 := rfl

lemma braceSum_cons (c : Char) (t : List Char) :
    braceSum (c :: t) = braceDelta c + braceSum t := by
  simp [braceSum]

lemma braceSum_append (a b : List Char) :
    braceSum (a ++ b) = braceSum a + braceSum b := by
  simp [braceSum]

lemma lbrace_ne_rbrace : lbrace ≠ rbrace := by decide

lemma scanStep_pos (d : Int) (buf : List Char) (objs : List Json) (c : Char)
    (hd : 0 < d) (hd' : 0 < d + braceDelta c) :
    scanStep ⟨d, buf, objs⟩ c = ⟨d + braceDelta c, buf ++ [c], objs⟩ := by
  unfold scanStep braceDelta
  by_cases hl : c = lbrace
  · subst hl
    simp [lbrace_ne_rbrace, show (0:Int) < d + 1 by omega, braceDelta]
  · by_cases hr : c = rbrace
    · subst hr
      have h1 : braceDelta rbrace = -1 := by decide
      rw [h1] at hd'
      have h2 : ¬ (d - 1 = 0) := by omega
      simp [if_neg hl, hd, h2, braceDelta]
      omega
    · simp [hl, hr, hd, braceDelta]

lemma scanChars_pos (s : List Char) : ∀ (d : Int) (buf : List Char)
    (objs : List Json) (rest : List Char), 0 < d →
    (∀ i : Nat, i < s.length → 0 < d + braceSum (s.take (i + 1))) →
    scanChars ⟨d, buf, objs⟩ (s ++ rest) =
      scanChars ⟨d + braceSum s, buf ++ s, objs⟩ rest := by
  induction s with
  | nil =>
    intro d buf objs rest _ _
    simp [braceSum_nil]
  | cons c s' ih =>
    intro d buf objs rest hd hpre
    have h0 : 0 < d + braceDelta c := by
      have := hpre 0 (by simp)
      simpa [braceSum_cons, braceSum_nil] using this
    have hstep : scanStep ⟨d, buf, objs⟩ c = ⟨d + braceDelta c, buf ++ [c], objs⟩ :=
      scanStep_pos d buf objs c hd h0
    have hrec := ih (d + braceDelta c) (buf ++ [c]) objs rest h0 (by
      intro i hi
      have h := hpre (i + 1) (by simpa using Nat.succ_lt_succ hi)
      rw [List.take_succ_cons, braceSum_cons] at h
      omega)
    calc scanChars ⟨d, buf, objs⟩ ((c :: s') ++ rest)
        = scanChars (scanStep ⟨d, buf, objs⟩ c) (s' ++ rest) := by simp [scanChars]
      _ = scanChars ⟨d + braceDelta c, buf ++ [c], objs⟩ (s' ++ rest) := by rw [hstep]
      _ = scanChars ⟨d + braceDelta c + braceSum s', buf ++ [c] ++ s', objs⟩ rest := hrec
      _ = scanChars ⟨d + braceSum (c :: s'), buf ++ c :: s', objs⟩ rest := by
            rw [braceSum_cons, ← Int.add_assoc]
            simp [List.append_assoc]

lemma scanChars_badSeg {s : List Char} (h : BadSeg s) (buf : List Char)
    (objs : List Json) (rest : List Char) :
    scanChars ⟨0, buf, objs⟩ (s ++ rest) = scanChars ⟨0, buf, objs⟩ rest := by
  revert h
  induction s with
  | nil => intro _; simp
  | cons c s' ih =>
    intro h
    obtain ⟨h1, h2⟩ := h
    have hc1 : c ≠ lbrace := fun hc => h1 (hc ▸ List.mem_cons_self c s')
    have hc2 : c ≠ rbrace := fun hc => h2 (hc ▸ List.mem_cons_self c s')
    have h1' : lbrace ∉ s' := fun hm => h1 (List.mem_cons_of_mem c hm)
    have h2' : rbrace ∉ s' := fun hm => h2 (List.mem_cons_of_mem c hm)
    have hstep : scanStep ⟨0, buf, objs⟩ c = ⟨0, buf, objs⟩ := by
      simp [scanStep, hc1, hc2]
    calc scanChars ⟨0, buf, objs⟩ ((c :: s') ++ rest)
        = scanChars (scanStep ⟨0, buf, objs⟩ c) (s' ++ rest) := by simp [scanChars]
      _ = scanChars ⟨0, buf, objs⟩ (s' ++ rest) := by rw [hstep]
      _ = scanChars ⟨0, buf, objs⟩ rest := ih ⟨h1', h2'⟩

lemma braceDelta_pos_eq {c : Char} (h : 0 < braceDelta c) : c = lbrace := by
  unfold braceDelta at h
  by_cases h1 : c = lbrace
  · exact h1
  · rw [if_neg h1] at h
    by_cases h2 : c = rbrace
    · rw [if_pos h2] at h; omega
    · rw [if_neg h2] at h; omega

lemma braceDelta_neg_eq {c : Char} (h : braceDelta c < 0) : c = rbrace := by
  unfold braceDelta at h
  by_cases h2 : c = rbrace
  · exact h2
  · by_cases h1 : c = lbrace
    · rw [if_pos h1] at h; omega
    · rw [if_neg h1, if_neg h2] at h; omega

lemma scanChars_truncSeg {s : List Char} (h : TruncSeg s) (buf : List Char)
    (objs : List Json) :
    (scanChars ⟨0, buf, objs⟩ s).objects = objs := by
  cases s with
  | nil => rfl
  | cons c t =>
    have hd1 : 0 < braceDelta c := by
      have := h 1 (by simp) (by omega)
      simpa [braceSum_cons, braceSum_nil] using this
    obtain rfl : c = lbrace := braceDelta_pos_eq hd1
    have hstep : scanStep ⟨0, buf, objs⟩ lbrace = ⟨1, buf ++ [lbrace], objs⟩ := by
      simp [scanStep, lbrace_ne_rbrace]
    have hpos := scanChars_pos t 1 (buf ++ [lbrace]) objs [] (by omega) (by
      intro i hi
      have hh := h (i + 2) (by simp; omega) (by omega)
      rw [List.take_succ_cons, braceSum_cons] at hh
      have hdl : braceDelta lbrace = 1 := by decide
      rw [hdl] at hh
      omega)
    calc (scanChars ⟨0, buf, objs⟩ (lbrace :: t)).objects
        = (scanChars ⟨1, buf ++ [lbrace], objs⟩ t).objects := by
            simp [scanChars, hstep]
      _ = (scanChars ⟨1, buf ++ [lbrace], objs⟩ (t ++ [])).objects := by simp
      _ = (scanChars ⟨1 + braceSum t, (buf ++ [lbrace]) ++ t, objs⟩ []).objects := by
            rw [hpos]
      _ = objs := rfl

lemma scanChars_goodSeg {s : List Char} {v : Json} (h : GoodSeg s v)
    (objs : List Json) (rest : List Char) :
    scanChars ⟨0, [], objs⟩ (s ++ rest) = scanChars ⟨0, [], objs ++ [v]⟩ rest := by
  obtain ⟨hhead, hins, hsum, hload⟩ := h
  cases s with
  | nil => simp at hhead
  | cons a t =>
  obtain rfl : a = lbrace := by simpa using hhead
  have hdl : braceDelta lbrace = 1 := by decide
  have ht : t ≠ [] := by
    rintro rfl
    rw [braceSum_cons, braceSum_nil, hdl] at hsum
    omega
  have htl : 0 < t.length := List.length_pos.mpr ht
  have hsplit : t.dropLast ++ [t.getLast ht] = t := List.dropLast_append_getLast ht
  have hstep : scanStep ⟨0, [], objs⟩ lbrace = ⟨1, [lbrace], objs⟩ := by
    simp [scanStep, lbrace_ne_rbrace]
  have htake : ∀ i : Nat, i + 1 ≤ t.length - 1 → t.dropLast.take (i + 1) = t.take (i + 1) := by
    intro i hi
    rw [List.dropLast_eq_take, List.take_take]
    congr 1
    omega
  have hpos := scanChars_pos t.dropLast 1 [lbrace] objs ([t.getLast ht] ++ rest)
    (by omega) (by
      intro i hi
      rw [List.length_dropLast] at hi
      have hcond : i + 2 < (lbrace :: t).length := by simp; omega
      have hh := hins (i + 2) hcond (by omega)
      rw [List.take_succ_cons, braceSum_cons, hdl] at hh
      rw [htake i (by omega)]
      omega)
  -- depth before the last character
  have hD : 0 < 1 + braceSum t.dropLast := by
    have hcond : t.length < (lbrace :: t).length := by simp
    have hh := hins t.length hcond htl
    have : (lbrace :: t).take t.length = lbrace :: t.dropLast := by
      have h1 : t.length = (t.length - 1) + 1 := by omega
      rw [h1, List.take_succ_cons, List.dropLast_eq_take]
    rw [this, braceSum_cons, hdl] at hh
    omega
  have hlastsum : 1 + braceSum t.dropLast + braceDelta (t.getLast ht) = 0 := by
    rw [braceSum_cons, hdl] at hsum
    have : braceSum t = braceSum t.dropLast + braceDelta (t.getLast ht) := by
      conv_lhs => rw [← hsplit]
      rw [braceSum_append, braceSum_cons, braceSum_nil]
      omega
    omega
  have hrb : t.getLast ht = rbrace := braceDelta_neg_eq (by omega)
  have hD1 : braceSum t.dropLast = 0 := by
    rw [hrb] at hlastsum
    have : braceDelta rbrace = -1 := by decide
    omega
  have hbufeq : lbrace :: (t.dropLast ++ [rbrace]) = lbrace :: t := by
    rw [← hrb, hsplit]
  have hstep2 : scanStep ⟨1, lbrace :: t.dropLast, objs⟩ rbrace = ⟨0, [], objs ++ [v]⟩ := by
    have hne : rbrace ≠ lbrace := fun hx => lbrace_ne_rbrace hx.symm
    simp only [scanStep, if_neg hne, if_pos rfl]
    norm_num
    rw [hbufeq, hload]
  calc scanChars ⟨0, [], objs⟩ ((lbrace :: t) ++ rest)
      = scanChars (scanStep ⟨0, [], objs⟩ lbrace) (t ++ rest) := by simp [scanChars]
    _ = scanChars ⟨1, [lbrace], objs⟩ (t ++ rest) := by rw [hstep]
    _ = scanChars ⟨1, [lbrace], objs⟩ (t.dropLast ++ ([t.getLast ht] ++ rest)) := by
          rw [← List.append_assoc, hsplit]
    _ = scanChars ⟨1 + braceSum t.dropLast, [lbrace] ++ t.dropLast, objs⟩
          ([t.getLast ht] ++ rest) := hpos
    _ = scanChars ⟨1, lbrace :: t.dropLast, objs⟩ (rbrace :: rest) := by
          rw [hD1, hrb]
          norm_num
    _ = scanChars (scanStep ⟨1, lbrace :: t.dropLast, objs⟩ rbrace) rest := by
          simp [scanChars]
    _ = scanChars ⟨0, [], objs ++ [v]⟩ rest := by rw [hstep2]

lemma scanChars_discardSeg {s : List Char} (h : DiscardSeg s)
    (objs : List Json) (rest : List Char) :
    scanChars ⟨0, [], objs⟩ (s ++ rest) = scanChars ⟨0, [], objs⟩ rest := by
  obtain ⟨hhead, hins, hsum, hload⟩ := h
  cases s with
  | nil => simp at hhead
  | cons a t =>
  obtain rfl : a = lbrace := by simpa using hhead
  have hdl : braceDelta lbrace = 1 := by decide
  have ht : t ≠ [] := by
    rintro rfl
    rw [braceSum_cons, braceSum_nil, hdl] at hsum
    omega
  have htl : 0 < t.length := List.length_pos.mpr ht
  have hsplit : t.dropLast ++ [t.getLast ht] = t := List.dropLast_append_getLast ht
  have hstep : scanStep ⟨0, [], objs⟩ lbrace = ⟨1, [lbrace], objs⟩ := by
    simp [scanStep, lbrace_ne_rbrace]
  have htake : ∀ i : Nat, i + 1 ≤ t.length - 1 → t.dropLast.take (i + 1) = t.take (i + 1) := by
    intro i hi
    rw [List.dropLast_eq_take, List.take_take]
    congr 1
    omega
  have hpos := scanChars_pos t.dropLast 1 [lbrace] objs ([t.getLast ht] ++ rest)
    (by omega) (by
      intro i hi
      rw [List.length_dropLast] at hi
      have hcond : i + 2 < (lbrace :: t).length := by simp; omega
      have hh := hins (i + 2) hcond (by omega)
      rw [List.take_succ_cons, braceSum_cons, hdl] at hh
      rw [htake i (by omega)]
      omega)
  have hD : 0 < 1 + braceSum t.dropLast := by
    have hcond : t.length < (lbrace :: t).length := by simp
    have hh := hins t.length hcond htl
    have : (lbrace :: t).take t.length = lbrace :: t.dropLast := by
      have h1 : t.length = (t.length - 1) + 1 := by omega
      rw [h1, List.take_succ_cons, List.dropLast_eq_take]
    rw [this, braceSum_cons, hdl] at hh
    omega
  have hlastsum : 1 + braceSum t.dropLast + braceDelta (t.getLast ht) = 0 := by
    rw [braceSum_cons, hdl] at hsum
    have : braceSum t = braceSum t.dropLast + braceDelta (t.getLast ht) := by
      conv_lhs => rw [← hsplit]
      rw [braceSum_append, braceSum_cons, braceSum_nil]
      omega
    omega
  have hrb : t.getLast ht = rbrace := braceDelta_neg_eq (by omega)
  have hD1 : braceSum t.dropLast = 0 := by
    rw [hrb] at hlastsum
    have : braceDelta rbrace = -1 := by decide
    omega
  have hbufeq : lbrace :: (t.dropLast ++ [rbrace]) = lbrace :: t := by
    rw [← hrb, hsplit]
  have hstep2 : scanStep ⟨1, lbrace :: t.dropLast, objs⟩ rbrace = ⟨0, [], objs⟩ := by
    have hne : rbrace ≠ lbrace := fun hx => lbrace_ne_rbrace hx.symm
    simp only [scanStep, if_neg hne, if_pos rfl]
    norm_num
    rw [hbufeq, hload]
  calc scanChars ⟨0, [], objs⟩ ((lbrace :: t) ++ rest)
      = scanChars (scanStep ⟨0, [], objs⟩ lbrace) (t ++ rest) := by simp [scanChars]
    _ = scanChars ⟨1, [lbrace], objs⟩ (t ++ rest) := by rw [hstep]
    _ = scanChars ⟨1, [lbrace], objs⟩ (t.dropLast ++ ([t.getLast ht] ++ rest)) := by
          rw [← List.append_assoc, hsplit]
    _ = scanChars ⟨1 + braceSum t.dropLast, [lbrace] ++ t.dropLast, objs⟩
          ([t.getLast ht] ++ rest) := hpos
    _ = scanChars ⟨1, lbrace :: t.dropLast, objs⟩ (rbrace :: rest) := by
          rw [hD1, hrb]
          norm_num
    _ = scanChars (scanStep ⟨1, lbrace :: t.dropLast, objs⟩ rbrace) rest := by
          simp [scanChars]
    _ = scanChars ⟨0, [], objs⟩ rest := by rw [hstep2]

lemma extracts_scan {cs : List Char} {objs : List Json} (h : Extracts cs objs) :
    ∀ objs0 : List Json, (scanChars ⟨0, [], objs0⟩ cs).objects = objs0 ++ objs := by
  induction h with
  | nil => intro objs0; simp [scanChars]
  | bad s rest objs2 hb _ ih =>
    intro objs0
    rw [scanChars_badSeg hb]
    exact ih objs0
  | discard s rest objs2 hd _ ih =>
    intro objs0
    rw [scanChars_discardSeg hd]
    exact ih objs0
  | good s v rest objs2 hg _ ih =>
    intro objs0
    rw [scanChars_goodSeg hg, ih (objs0 ++ [v])]
    simp
  | trunc s hts =>
    intro objs0
    rw [scanChars_truncSeg hts]
    simp

/-- Claim C1 (amended): for an array body that is a concatenation of
well-formed JSON object texts whose brace depth is positive strictly
inside them (in particular, any serialised objects without brace
characters inside string literals), of brace-balanced malformed objects
of the same shape — which the scanner closes, fails to parse and
silently discards, the spec's recoverable-by-discard case — of
brace-free malformed fragments, and of at most one trailing truncated
fragment, the recovery scanner returns exactly the well-formed objects,
in their original order.  As stated the claim is false: a malformed
fragment containing an unbalanced brace corrupts the depth counter (see
the counterexample).  -/
theorem claim_c1 (cs : List Char) (objs : List Json) (h : Extracts cs objs) :
    extract_complete_objectsL cs = objs := by
  have h0 := extracts_scan h []
  unfold extract_complete_objectsL
  simpa using h0

/-- Claim C1, counterexample to the original statement: the array body
consisting of the malformed fragment `\x7b` followed by the well-formed
object `\x7b"a": 1\x7d` (N = 1, M = 1) makes the scanner return no
objects at all, not the one well-formed object.  -/
theorem claim_c1_counterexample :
    ClaimedSegs ("\x7b".data ++ "\x7b\"a\": 1\x7d".data) [Json.obj [("a", Json.num 1)]] ∧
    extract_complete_objectsL ("\x7b".data ++ "\x7b\"a\": 1\x7d".data) ≠
      [Json.obj [("a", Json.num 1)]] := by
  constructor
  · have hgood : ClaimedSegs ("\x7b\"a\": 1\x7d".data ++ []) [Json.obj [("a", Json.num 1)]] :=
      ClaimedSegs.good _ _ _ _ rfl rfl ClaimedSegs.nil
    have hd := ClaimedSegs.bad ("\x7b".data) ("\x7b\"a\": 1\x7d".data ++ [])
      [Json.obj [("a", Json.num 1)]] (by decide) rfl hgood
    simpa using hd
  · have hval : extract_complete_objectsL ("\x7b".data ++ "\x7b\"a\": 1\x7d".data) = [] := rfl
    rw [hval]
    exact fun hx => List.cons_ne_nil _ _ hx.symm

/-- Witness for the amended claim C1: a concrete array body with a
brace-free fragment, one well-formed object, another brace-free
fragment, a brace-balanced malformed object that the scanner closes and
discards, a further brace-free fragment and a trailing truncated
fragment.  -/
theorem claim_c1_witness :
    Extracts
      (" , ".data ++ ("\x7b\"a\": 1\x7d".data ++ (", xx".data ++
        ("\x7b\"b\": \x7d".data ++ (" ; ".data ++ "\x7b\"c\": ".data)))))
      [Json.obj [("a", Json.num 1)]] ∧
    extract_complete_objectsL
      (" , ".data ++ ("\x7b\"a\": 1\x7d".data ++ (", xx".data ++
        ("\x7b\"b\": \x7d".data ++ (" ; ".data ++ "\x7b\"c\": ".data))))) =
      [Json.obj [("a", Json.num 1)]] := by
  have hg : GoodSeg ("\x7b\"a\": 1\x7d".data) (Json.obj [("a", Json.num 1)]) :=
    ⟨by decide, by decide, by decide, rfl⟩
  have hdisc : DiscardSeg ("\x7b\"b\": \x7d".data) :=
    ⟨by decide, by decide, by decide, rfl⟩
  have hd : Extracts
      (" , ".data ++ ("\x7b\"a\": 1\x7d".data ++ (", xx".data ++
        ("\x7b\"b\": \x7d".data ++ (" ; ".data ++ "\x7b\"c\": ".data)))))
      [Json.obj [("a", Json.num 1)]] :=
    Extracts.bad _ _ _ ⟨by decide, by decide⟩
      (Extracts.good _ _ _ _ hg
        (Extracts.bad _ _ _ ⟨by decide, by decide⟩
          (Extracts.discard _ _ _ hdisc
            (Extracts.bad _ _ _ ⟨by decide, by decide⟩
              (Extracts.trunc _ (by unfold TruncSeg; decide))))))
  exact ⟨hd, claim_c1 _ _ hd⟩

/-- Claim C2 (amended): the Recovery Parser is a total function — every
raise site of the source (`json.loads`, the continuation callback) is
caught, which the embedding reflects by returning a plain pair for every
input and every callback, including callbacks that raise — and feeding it
the empty string returns two empty lists when no continuation callback is
supplied, or when the callback raises.  The original claim is false for a
callback that returns extractable content (see the counterexample): the
empty first pass triggers the retry, and the second pass returns the
continuation's objects.  -/
theorem claim_c2 :
    (∀ (cb : Option JsonContinueCallback) (raw : List Char),
       ∃ tc ats, parse_with_retry cb raw = (tc, ats)) ∧
    parse_with_retry none [] = ([], []) ∧
    (∀ (f : JsonContinueCallback) (e : Unit), f [] = Except.error e →
       parse_with_retry (some f) [] = ([], [])) := by
  refine ⟨fun cb raw => ⟨_, _, rfl⟩, rfl, ?_⟩
  intro f e hf
  have hstrip : stripMarkdownL [] = [] := rfl
  have h1 : extract_arrayL [] testCasesKey = [] := rfl
  have h2 : extract_arrayL [] apiTestsKey = [] := rfl
  simp only [parse_with_retry, parse_with_retry_traced, hstrip, h1, h2,
    List.isEmpty_nil, Bool.and_self, if_true, hf]

/-- Witness for claim C2's callback-raises conjunct at a concrete raising
callback.  -/
theorem claim_c2_witness :
    (fun _ : List Char => (Except.error () : Except Unit (List Char))) [] =
      Except.error () ∧
    parse_with_retry (some (fun _ => Except.error ())) [] = ([], []) :=
  ⟨rfl, claim_c2.2.2 (fun _ => Except.error ()) () rfl⟩

/-- Claim C2, counterexample to the original statement: with a
continuation callback that returns a well-formed `test_cases` document,
feeding the empty string to the Recovery Parser does not return two empty
lists — the single retry pass extracts the continuation's object.  -/
theorem claim_c2_counterexample :
    parse_with_retry
      (some (fun _ => Except.ok ("\x7b\"test_cases\": [\x7b\"a\": 1\x7d]\x7d".data)))
      [] ≠ ([], []) := by
  intro h
  have hval : parse_with_retry
      (some (fun _ => Except.ok ("\x7b\"test_cases\": [\x7b\"a\": 1\x7d]\x7d".data)))
      [] = ([Json.obj [("a", Json.num 1)]], []) := rfl
  rw [hval] at h
  exact List.cons_ne_nil _ _ (congrArg Prod.fst h)

/-- Claim C3: the continuation callback is invoked (and then exactly once)
precisely when both lists are empty after the first pass and a callback
was supplied; it is never invoked twice; when the callback returns, the
continuation is merged onto the (markdown-stripped) buffer as
right-trimmed original, newline, left-trimmed continuation, and the
result is exactly one further extraction pass over the merged text.  -/
theorem claim_c3 (cb : Option JsonContinueCallback) (raw : List Char) :
    ((parse_with_retry_traced cb raw).callback_calls = 1 ↔
      (extract_arrayL (stripMarkdownL raw) testCasesKey = [] ∧
       extract_arrayL (stripMarkdownL raw) apiTestsKey = [] ∧ cb ≠ none)) ∧
    (parse_with_retry_traced cb raw).callback_calls ≤ 1 ∧
    (∀ (f : JsonContinueCallback) (continuation : List Char), cb = some f →
       extract_arrayL (stripMarkdownL raw) testCasesKey = [] →
       extract_arrayL (stripMarkdownL raw) apiTestsKey = [] →
       f (stripMarkdownL raw) = Except.ok continuation →
       parse_with_retry cb raw =
         (extract_arrayL (merge_json_outputsL (stripMarkdownL raw) continuation)
            testCasesKey,
          extract_arrayL (merge_json_outputsL (stripMarkdownL raw) continuation)
            apiTestsKey)) ∧
    (∀ (original continuation : List Char),
       merge_json_outputsL original continuation =
         pyRStripL original ++ '\n' :: pyLStripL continuation) := by
  by_cases hbe : ((extract_arrayL (stripMarkdownL raw) testCasesKey).isEmpty &&
      (extract_arrayL (stripMarkdownL raw) apiTestsKey).isEmpty) = true
  · have hbe' := hbe
    rw [Bool.and_eq_true, List.isEmpty_iff, List.isEmpty_iff] at hbe'
    cases cb with
    | none =>
      have htr : parse_with_retry_traced none raw = ⟨[], [], 0⟩ := by
        simp [parse_with_retry_traced, hbe'.1, hbe'.2]
      refine ⟨?_, ?_, ?_, fun o c => rfl⟩
      · simp [htr]
      · simp [htr]
      · intro f continuation hcb
        exact absurd hcb (by simp)
    | some f =>
      cases hf : f (stripMarkdownL raw) with
      | error e =>
        have htr : parse_with_retry_traced (some f) raw = ⟨[], [], 1⟩ := by
          simp [parse_with_retry_traced, hbe'.1, hbe'.2, hf]
        refine ⟨?_, ?_, ?_, fun o c => rfl⟩
        · simp [htr, hbe'.1, hbe'.2]
        · simp [htr]
        · intro g continuation hcb h1 h2 hg
          obtain rfl : f = g := by injection hcb
          rw [hf] at hg
          exact absurd hg (by simp)
      | ok cont =>
        by_cases hbe2 : ((extract_arrayL (merge_json_outputsL (stripMarkdownL raw) cont)
            testCasesKey).isEmpty &&
            (extract_arrayL (merge_json_outputsL (stripMarkdownL raw) cont)
            apiTestsKey).isEmpty) = true
        · have hbe2' := hbe2
          rw [Bool.and_eq_true, List.isEmpty_iff, List.isEmpty_iff] at hbe2'
          have htr : parse_with_retry_traced (some f) raw = ⟨[], [], 1⟩ := by
            simp [parse_with_retry_traced, hbe'.1, hbe'.2, hf, hbe2]
          refine ⟨?_, ?_, ?_, fun o c => rfl⟩
          · simp [htr, hbe'.1, hbe'.2]
          · simp [htr]
          · intro g continuation hcb h1 h2 hg
            obtain rfl : f = g := by injection hcb
            rw [hf] at hg
            obtain rfl : cont = continuation := by injection hg
            simp [parse_with_retry, htr, hbe2'.1, hbe2'.2]
        · have htr : parse_with_retry_traced (some f) raw =
              ⟨extract_arrayL (merge_json_outputsL (stripMarkdownL raw) cont) testCasesKey,
               extract_arrayL (merge_json_outputsL (stripMarkdownL raw) cont) apiTestsKey,
               1⟩ := by
            simp [parse_with_retry_traced, hbe'.1, hbe'.2, hf, hbe2]
          refine ⟨?_, ?_, ?_, fun o c => rfl⟩
          · simp [htr, hbe'.1, hbe'.2]
          · simp [htr]
          · intro g continuation hcb h1 h2 hg
            obtain rfl : f = g := by injection hcb
            rw [hf] at hg
            obtain rfl : cont = continuation := by injection hg
            simp [parse_with_retry, htr]
  · have hbe' := hbe
    rw [Bool.and_eq_true] at hbe'
    have htr : parse_with_retry_traced cb raw =
        ⟨extract_arrayL (stripMarkdownL raw) testCasesKey,
         extract_arrayL (stripMarkdownL raw) apiTestsKey, 0⟩ := by
      simp only [parse_with_retry_traced]
      rw [if_neg hbe]
    refine ⟨?_, ?_, ?_, fun o c => rfl⟩
    · rw [htr]
      constructor
      · intro h; exact absurd h (by simp)
      · rintro ⟨h1, h2, -⟩
        exact absurd ⟨by rw [h1]; rfl, by rw [h2]; rfl⟩ hbe'
    · rw [htr]
      simp
    · intro g continuation hcb h1 h2 hg
      exact absurd ⟨by rw [h1]; rfl, by rw [h2]; rfl⟩ hbe'

/-- Witness for claim C3 at a concrete empty first pass with a supplied
callback: the callback is invoked exactly once.  -/
theorem claim_c3_witness :
    (extract_arrayL (stripMarkdownL ("junk".data)) testCasesKey = [] ∧
     extract_arrayL (stripMarkdownL ("junk".data)) apiTestsKey = [] ∧
     (some (fun _ => Except.ok ("xx".data)) : Option JsonContinueCallback) ≠ none) ∧
    (parse_with_retry_traced (some (fun _ => Except.ok ("xx".data)))
      ("junk".data)).callback_calls = 1 := by
  have hhyp : extract_arrayL (stripMarkdownL ("junk".data)) testCasesKey = [] ∧
      extract_arrayL (stripMarkdownL ("junk".data)) apiTestsKey = [] ∧
      (some (fun _ => Except.ok ("xx".data)) : Option JsonContinueCallback) ≠ none :=
    ⟨rfl, rfl, Option.some_ne_none _⟩
  exact ⟨hhyp, (claim_c3 _ _).1.mpr hhyp⟩

/-- The accumulating loop of `_filter_valid` is `List.filter` with the
all-required-fields test.  -/
lemma filter_valid_eq_filter (items : List Json) (req : List String) :
    filter_valid items req =
      items.filter (fun it => req.all (fun f => hasField it f)) := by
  induction items with
  | nil => rfl
  | cons it rest ih =>
    unfold filter_valid
    rw [List.filter_cons, ih]

/-- Claim C6: the filtering step keeps exactly the records that contain
all required fields of their category — `test_id`, `description`,
`steps`, `expected_result` for UI and `test_id`, `method`, `url`,
`expected_status` for API — and discards every other record, preserving
order (sublist).  -/
theorem claim_c6 (items : List Json) (x : Json) :
    (x ∈ filter_valid items REQUIRED_TEST_FIELDS ↔
      x ∈ items ∧ hasField x ("test_id") = true ∧ hasField x ("description") = true ∧
        hasField x ("steps") = true ∧ hasField x ("expected_result") = true) ∧
    (x ∈ filter_valid items REQUIRED_API_FIELDS ↔
      x ∈ items ∧ hasField x ("test_id") = true ∧ hasField x ("method") = true ∧
        hasField x ("url") = true ∧ hasField x ("expected_status") = true) ∧
    List.Sublist (filter_valid items REQUIRED_TEST_FIELDS) items ∧
    List.Sublist (filter_valid items REQUIRED_API_FIELDS) items := by
  refine ⟨?_, ?_, ?_, ?_⟩ <;> rw [filter_valid_eq_filter]
  · rw [List.mem_filter]
    simp [REQUIRED_TEST_FIELDS, and_assoc]
  · rw [List.mem_filter]
    simp [REQUIRED_API_FIELDS, and_assoc]
  · exact List.filter_sublist items
  · exact List.filter_sublist items

/-- Witness for claim C6: a record with all UI fields passes the filter,
which a record with only `test_id` does not enter.  -/
theorem claim_c6_witness :
    (Json.obj [("test_id", Json.str ("T1")), ("description", Json.str ("d")),
        ("steps", Json.arr []), ("expected_result", Json.str ("r"))] ∈
      [Json.obj [("test_id", Json.str ("T1")), ("description", Json.str ("d")),
        ("steps", Json.arr []), ("expected_result", Json.str ("r"))],
       Json.obj [("test_id", Json.str ("T2"))]] ∧
     hasField (Json.obj [("test_id", Json.str ("T1")), ("description", Json.str ("d")),
        ("steps", Json.arr []), ("expected_result", Json.str ("r"))]) ("test_id") = true ∧
     hasField (Json.obj [("test_id", Json.str ("T1")), ("description", Json.str ("d")),
        ("steps", Json.arr []), ("expected_result", Json.str ("r"))]) ("description") = true ∧
     hasField (Json.obj [("test_id", Json.str ("T1")), ("description", Json.str ("d")),
        ("steps", Json.arr []), ("expected_result", Json.str ("r"))]) ("steps") = true ∧
     hasField (Json.obj [("test_id", Json.str ("T1")), ("description", Json.str ("d")),
        ("steps", Json.arr []), ("expected_result", Json.str ("r"))]) ("expected_result") = true) ∧
    Json.obj [("test_id", Json.str ("T1")), ("description", Json.str ("d")),
        ("steps", Json.arr []), ("expected_result", Json.str ("r"))] ∈
      filter_valid
        [Json.obj [("test_id", Json.str ("T1")), ("description", Json.str ("d")),
          ("steps", Json.arr []), ("expected_result", Json.str ("r"))],
         Json.obj [("test_id", Json.str ("T2"))]] REQUIRED_TEST_FIELDS := by
  have hhyp : Json.obj [("test_id", Json.str ("T1")), ("description", Json.str ("d")),
        ("steps", Json.arr []), ("expected_result", Json.str ("r"))] ∈
      [Json.obj [("test_id", Json.str ("T1")), ("description", Json.str ("d")),
        ("steps", Json.arr []), ("expected_result", Json.str ("r"))],
       Json.obj [("test_id", Json.str ("T2"))]] ∧
      hasField (Json.obj [("test_id", Json.str ("T1")), ("description", Json.str ("d")),
        ("steps", Json.arr []), ("expected_result", Json.str ("r"))]) ("test_id") = true ∧
      hasField (Json.obj [("test_id", Json.str ("T1")), ("description", Json.str ("d")),
        ("steps", Json.arr []), ("expected_result", Json.str ("r"))]) ("description") = true ∧
      hasField (Json.obj [("test_id", Json.str ("T1")), ("description", Json.str ("d")),
        ("steps", Json.arr []), ("expected_result", Json.str ("r"))]) ("steps") = true ∧
      hasField (Json.obj [("test_id", Json.str ("T1")), ("description", Json.str ("d")),
        ("steps", Json.arr []), ("expected_result", Json.str ("r"))]) ("expected_result") = true :=
    ⟨List.mem_cons_self _ _, rfl, rfl, rfl, rfl⟩
  exact ⟨hhyp, (claim_c6 _ _).1.mpr hhyp⟩

/-- Claim C7: `json_to_excel` raises the empty-input error exactly when
the raw text is empty or whitespace-only; it raises the no-valid-records
error exactly when the input was non-blank but both lists are empty after
recovery and required-field filtering; otherwise it succeeds and returns
the output path.  -/
theorem claim_c7 (cb : Option JsonContinueCallback) (fs : FileSystem)
    (output_path : String) (llm_output : List Char) :
    (json_to_excelF cb fs output_path llm_output =
        Except.error ("LLM returned empty output") ↔ pyStripL llm_output = []) ∧
    (json_to_excelF cb fs output_path llm_output =
        Except.error ("No valid test cases found after recovery") ↔
      (pyStripL llm_output ≠ [] ∧
       filter_valid (parse_with_retry cb llm_output).1 REQUIRED_TEST_FIELDS = [] ∧
       filter_valid (parse_with_retry cb llm_output).2 REQUIRED_API_FIELDS = [])) ∧
    ((∃ fs', json_to_excelF cb fs output_path llm_output =
        Except.ok (fs', output_path)) ↔
      (pyStripL llm_output ≠ [] ∧
       ¬(filter_valid (parse_with_retry cb llm_output).1 REQUIRED_TEST_FIELDS = [] ∧
         filter_valid (parse_with_retry cb llm_output).2 REQUIRED_API_FIELDS = []))) ∧
    (∀ fs' p', json_to_excelF cb fs output_path llm_output = Except.ok (fs', p') →
       p' = output_path) := by
  by_cases h1 : pyStripL llm_output = []
  · have hj : json_to_excelF cb fs output_path llm_output =
        Except.error ("LLM returned empty output") := by
      simp only [json_to_excelF]
      rw [if_pos (Or.inr h1)]
    refine ⟨by simp [hj, h1], ?_, ?_, ?_⟩
    · constructor
      · intro h
        rw [hj] at h
        have heq : "LLM returned empty output" = "No valid test cases found after recovery" := by
          injection h
        exact absurd heq (by decide)
      · rintro ⟨hne, -, -⟩
        exact absurd h1 hne
    · constructor
      · rintro ⟨fs', h⟩
        rw [hj] at h
        exact Except.noConfusion h
      · rintro ⟨hne, -⟩
        exact absurd h1 hne
    · intro fs' p' h
      rw [hj] at h
      exact Except.noConfusion h
  · have hcond : ¬(llm_output = [] ∨ pyStripL llm_output = []) := by
      rintro (h | h)
      · exact h1 (by rw [h]; rfl)
      · exact h1 h
    by_cases h2 : ((filter_valid (parse_with_retry cb llm_output).1
          REQUIRED_TEST_FIELDS).isEmpty &&
        (filter_valid (parse_with_retry cb llm_output).2
          REQUIRED_API_FIELDS).isEmpty) = true
    · have h2' := h2
      rw [Bool.and_eq_true, List.isEmpty_iff, List.isEmpty_iff] at h2'
      have hj : json_to_excelF cb fs output_path llm_output =
          Except.error ("No valid test cases found after recovery") := by
        simp only [json_to_excelF]
        rw [if_neg hcond, if_pos h2]
      refine ⟨?_, ?_, ?_, ?_⟩
      · constructor
        · intro h
          rw [hj] at h
          have heq : "No valid test cases found after recovery" = "LLM returned empty output" := by
            injection h
          exact absurd heq (by decide)
        · intro h
          exact absurd h h1
      · exact ⟨fun _ => ⟨h1, h2'⟩, fun _ => hj⟩
      · constructor
        · rintro ⟨fs', h⟩
          rw [hj] at h
          exact Except.noConfusion h
        · rintro ⟨-, hne⟩
          exact absurd h2' hne
      · intro fs' p' h
        rw [hj] at h
        exact Except.noConfusion h
    · have hj : json_to_excelF cb fs output_path llm_output =
          Except.ok
            (⟨some (write_workbook
              ((filter_valid (parse_with_retry cb llm_output).1
                REQUIRED_TEST_FIELDS).map dictOf)
              ((filter_valid (parse_with_retry cb llm_output).2
                REQUIRED_API_FIELDS).map dictOf))⟩,
             output_path) := by
        simp only [json_to_excelF]
        rw [if_neg hcond, if_neg h2]
      have h2' : ¬(filter_valid (parse_with_retry cb llm_output).1
            REQUIRED_TEST_FIELDS = [] ∧
          filter_valid (parse_with_retry cb llm_output).2
            REQUIRED_API_FIELDS = []) := by
        rintro ⟨hA, hB⟩
        exact h2 (by rw [hA, hB]; rfl)
      refine ⟨?_, ?_, ?_, ?_⟩
      · constructor
        · intro h
          rw [hj] at h
          exact Except.noConfusion h
        · intro h
          exact absurd h h1
      · constructor
        · intro h
          rw [hj] at h
          exact Except.noConfusion h
        · rintro ⟨-, hA, hB⟩
          exact absurd ⟨hA, hB⟩ h2'
      · exact ⟨fun _ => ⟨h1, h2'⟩, fun _ => ⟨_, hj⟩⟩
      · intro fs' p' h
        have h3 := hj.symm.trans h
        have h4 := Except.ok.inj h3
        exact (congrArg Prod.snd h4).symm

/-- Witness for claim C7: a whitespace-only input is rejected with the
empty-input error.  -/
theorem claim_c7_witness :
    pyStripL ("   ".data) = [] ∧
    json_to_excelF none ⟨none⟩ ("outputs/test_cases.xlsx") ("   ".data) =
      Except.error ("LLM returned empty output") :=
  ⟨rfl, (claim_c7 none ⟨none⟩ ("outputs/test_cases.xlsx") ("   ".data)).1.mpr rfl⟩

/-- Claim C9: the handler's constructor removes any pre-existing artifact
at the output path, and the artifact written by a successful
`json_to_excel` call depends only on that call's input — two runs on the
same input from different prior file-system states produce identical
results (full replace; no append or merge with prior content).  -/
theorem claim_c9 :
    (∀ fs : FileSystem, (excel_handler_init fs).artifact = none) ∧
    (∀ (cb : Option JsonContinueCallback) (fs1 fs2 : FileSystem)
       (output_path : String) (llm_output : List Char) (r1 r2 : FileSystem × String),
       json_to_excelF cb fs1 output_path llm_output = Except.ok r1 →
       json_to_excelF cb fs2 output_path llm_output = Except.ok r2 → r1 = r2) := by
  refine ⟨fun fs => rfl, ?_⟩
  intro cb fs1 fs2 path raw r1 r2 h1 h2
  have heq : json_to_excelF cb fs1 path raw = json_to_excelF cb fs2 path raw := rfl
  rw [heq, h2] at h1
  exact (Except.ok.inj h1).symm

set_option maxRecDepth 4000 in
/-- Witness for claim C9: the same valid input written from an empty file
system and over a pre-existing artifact yields the same result.  -/
theorem claim_c9_witness :
    json_to_excelF none ⟨none⟩ ("out.xlsx")
      (("\x7b\"test_cases\": [\x7b\"test_id\": \"T1\", \"description\": \"d\", " ++
        "\"steps\": [], \"expected_result\": \"r\"\x7d], \"api_tests\": []\x7d").data) =
      Except.ok
        (⟨some (write_workbook
          [[("test_id", Json.str ("T1")), ("description", Json.str ("d")),
            ("steps", Json.arr []), ("expected_result", Json.str ("r"))]] [])⟩,
         "out.xlsx") ∧
    json_to_excelF none ⟨some (write_workbook [] [])⟩ ("out.xlsx")
      (("\x7b\"test_cases\": [\x7b\"test_id\": \"T1\", \"description\": \"d\", " ++
        "\"steps\": [], \"expected_result\": \"r\"\x7d], \"api_tests\": []\x7d").data) =
      Except.ok
        (⟨some (write_workbook
          [[("test_id", Json.str ("T1")), ("description", Json.str ("d")),
            ("steps", Json.arr []), ("expected_result", Json.str ("r"))]] [])⟩,
         "out.xlsx") ∧
    ((⟨some (write_workbook
          [[("test_id", Json.str ("T1")), ("description", Json.str ("d")),
            ("steps", Json.arr []), ("expected_result", Json.str ("r"))]] [])⟩,
       "out.xlsx") : FileSystem × String) =
      (⟨some (write_workbook
          [[("test_id", Json.str ("T1")), ("description", Json.str ("d")),
            ("steps", Json.arr []), ("expected_result", Json.str ("r"))]] [])⟩,
       "out.xlsx") := by
  refine ⟨rfl, rfl, ?_⟩
  exact claim_c9.2 none ⟨none⟩ ⟨some (write_workbook [] [])⟩ ("out.xlsx")
    (("\x7b\"test_cases\": [\x7b\"test_id\": \"T1\", \"description\": \"d\", " ++
      "\"steps\": [], \"expected_result\": \"r\"\x7d], \"api_tests\": []\x7d").data)
    _ _ rfl rfl

lemma insertKey_nodup {acc : List String} (h : acc.Nodup) (k : String) :
    (insertKey acc k).Nodup := by
  unfold insertKey
  by_cases hc : acc.contains k = true
  · rw [if_pos hc]; exact h
  · rw [if_neg hc]
    have hk : k ∉ acc := fun hm => hc (List.elem_iff.mpr hm)
    simp [List.nodup_append, h, hk]

lemma insertKey_mem_of_mem {acc : List String} {a : String} (h : a ∈ acc) (k : String) :
    a ∈ insertKey acc k := by
  unfold insertKey
  by_cases hc : acc.contains k = true
  · rw [if_pos hc]; exact h
  · rw [if_neg hc]; exact List.mem_append_left _ h

lemma insertKey_mem_self (acc : List String) (k : String) : k ∈ insertKey acc k := by
  unfold insertKey
  by_cases hc : acc.contains k = true
  · rw [if_pos hc]; exact List.elem_iff.mp hc
  · rw [if_neg hc]; exact List.mem_append_right _ (List.mem_singleton.mpr rfl)

lemma foldl_insertKey_nodup (ks : List String) :
    ∀ acc : List String, acc.Nodup → (ks.foldl insertKey acc).Nodup := by
  induction ks with
  | nil => intro acc h; exact h
  | cons k ks' ih => intro acc h; exact ih _ (insertKey_nodup h k)

lemma foldl_insertKey_mem (ks : List String) :
    ∀ {acc : List String} {a : String}, a ∈ acc → a ∈ ks.foldl insertKey acc := by
  induction ks with
  | nil => intro acc a h; exact h
  | cons k ks' ih => intro acc a h; exact ih (insertKey_mem_of_mem h k)

lemma foldl_insertKey_mem_keys (ks : List String) :
    ∀ {acc : List String} {a : String}, a ∈ ks → a ∈ ks.foldl insertKey acc := by
  induction ks with
  | nil => intro _ a h; exact absurd h (List.not_mem_nil a)
  | cons k ks' ih =>
    intro acc a h
    rcases List.mem_cons.mp h with h | h
    · subst h
      exact foldl_insertKey_mem ks' (insertKey_mem_self acc a)
    · exact ih h

lemma unionKeys_foldl_nodup (rows : List PyDict) :
    ∀ acc : List String, acc.Nodup →
      (rows.foldl (fun acc r => (r.map Prod.fst).foldl insertKey acc) acc).Nodup := by
  induction rows with
  | nil => intro acc h; exact h
  | cons r rows' ih => intro acc h; exact ih _ (foldl_insertKey_nodup _ _ h)

lemma unionKeys_nodup (rows : List PyDict) : (unionKeys rows).Nodup :=
  unionKeys_foldl_nodup rows [] List.nodup_nil

lemma unionKeys_foldl_mem (rows : List PyDict) :
    ∀ {acc : List String} {a : String}, a ∈ acc →
      a ∈ rows.foldl (fun acc r => (r.map Prod.fst).foldl insertKey acc) acc := by
  induction rows with
  | nil => intro _ a h; exact h
  | cons r rows' ih => intro acc a h; exact ih (foldl_insertKey_mem _ h)

lemma mem_unionKeys_of_mem_row (rows : List PyDict) :
    ∀ {acc : List String} {r : PyDict} {f : String}, r ∈ rows → f ∈ r.map Prod.fst →
      f ∈ rows.foldl (fun acc r => (r.map Prod.fst).foldl insertKey acc) acc := by
  induction rows with
  | nil => intro _ r f h _; exact absurd h (List.not_mem_nil r)
  | cons r0 rows' ih =>
    intro acc r f hr hf
    rcases List.mem_cons.mp hr with h | h
    · subst h
      exact unionKeys_foldl_mem rows' (foldl_insertKey_mem_keys _ hf)
    · exact ih h hf

lemma lookup_map_pair (cols : List String) (g : String → Json) (f : String) :
    (cols.map (fun c => (c, g c))).lookup f =
      if f ∈ cols then some (g f) else none := by
  induction cols with
  | nil => simp
  | cons c cs ih =>
    by_cases hfc : f = c
    · subst hfc
      simp [List.lookup]
    · have hbeq : (f == c) = false := beq_eq_false_iff_ne.mpr hfc
      simp only [List.map_cons, List.lookup, hbeq]
      rw [ih]
      simp [List.mem_cons, hfc]

lemma zip_self_map (cols : List String) (g : String → Option Json) :
    (cols.zip (cols.map g)).map (fun p => (p.1, p.2.getD (Json.str ""))) =
      cols.map (fun c => (c, (g c).getD (Json.str ""))) := by
  have h1 : cols.zip (cols.map g) = cols.map (fun a => (a, g a)) := by
    have h0 : cols.zip (cols.map g) = (List.map id cols).zip (cols.map g) := by
      rw [List.map_id]
    rw [h0, List.zip_map']
    rfl
  rw [h1, List.map_map]
  rfl

lemma sheetRecords_write_sheet (rows : List PyDict) (columns : List String) :
    sheetRecords (write_sheet rows columns) =
      rows.map (readRowOf (unionKeys rows)) := by
  unfold write_sheet
  by_cases he : rows.isEmpty = true
  · rw [if_pos he]
    obtain rfl : rows = [] := List.isEmpty_iff.mp he
    rfl
  · rw [if_neg he]
    unfold sheetRecords readRowOf
    simp only [List.map_map]
    apply List.map_congr_left
    intro r _
    simp only [Function.comp]
    exact zip_self_map (unionKeys rows) (fun c => r.lookup c)

/-- Claim C8: reading the written workbook back yields, per table, one
row per written record in the original order; looking up a sheet column
in a read-back row gives the original value when the record carried the
field and the empty string when it did not, and a name that is not a
column of the sheet is absent; every field of every written record is a
column of its sheet.  -/
theorem claim_c8 (ui api : List PyDict) :
    read_test_casesF ⟨some (write_workbook ui api)⟩ =
      Except.ok (ui.map (readRowOf (unionKeys ui)),
                 api.map (readRowOf (unionKeys api))) ∧
    (∀ (rows : List PyDict) (r : PyDict) (f : String),
       (readRowOf (unionKeys rows) r).lookup f =
         if f ∈ unionKeys rows then some ((r.lookup f).getD (Json.str ""))
         else none) ∧
    (∀ (rows : List PyDict) (r : PyDict) (f : String), r ∈ rows →
       f ∈ r.map Prod.fst → f ∈ unionKeys rows) := by
  refine ⟨?_, ?_, ?_⟩
  · have hread : read_test_casesF ⟨some (write_workbook ui api)⟩ =
        Except.ok (sheetRecords (write_sheet ui REQUIRED_TEST_FIELDS),
                   sheetRecords (write_sheet api REQUIRED_API_FIELDS)) := rfl
    rw [hread, sheetRecords_write_sheet, sheetRecords_write_sheet]
  · intro rows r f
    unfold readRowOf
    exact lookup_map_pair (unionKeys rows) (fun c => (r.lookup c).getD (Json.str "")) f
  · intro rows r f hr hf
    exact mem_unionKeys_of_mem_row rows hr hf

/-- Witness for claim C8: the `page` field of the second written record
is a column of the sheet.  -/
theorem claim_c8_witness :
    (([("test_id", Json.str ("T2")), ("page", Json.str ("p"))] : PyDict) ∈
       ([[("test_id", Json.str ("T1"))],
         [("test_id", Json.str ("T2")), ("page", Json.str ("p"))]] : List PyDict) ∧
     "page" ∈ ([("test_id", Json.str ("T2")), ("page", Json.str ("p"))] : PyDict).map
       Prod.fst) ∧
    "page" ∈ unionKeys
      [[("test_id", Json.str ("T1"))],
       [("test_id", Json.str ("T2")), ("page", Json.str ("p"))]] := by
  have hr : ([("test_id", Json.str ("T2")), ("page", Json.str ("p"))] : PyDict) ∈
      ([[("test_id", Json.str ("T1"))],
        [("test_id", Json.str ("T2")), ("page", Json.str ("p"))]] : List PyDict) :=
    List.mem_cons_of_mem _ (List.mem_cons_self _ _)
  have hf : "page" ∈ ([("test_id", Json.str ("T2")), ("page", Json.str ("p"))] :
      PyDict).map Prod.fst := by
    simp
  exact ⟨⟨hr, hf⟩, (claim_c8 [] []).2.2 _ _ ("page") hr hf⟩

lemma foldl_default_nodup (cfg : ModelsCfg) (l : List String) :
    ∀ acc : List String, acc.Nodup →
      (l.foldl (fun acc p => if is_enabled cfg p ∧ p ∉ acc then acc ++ [p] else acc)
        acc).Nodup := by
  induction l with
  | nil => intro acc h; exact h
  | cons p l' ih =>
    intro acc h
    rw [List.foldl_cons]
    by_cases hc : is_enabled cfg p = true ∧ p ∉ acc
    · rw [if_pos hc]
      exact ih _ (by simp [List.nodup_append, h, hc.2])
    · rw [if_neg hc]
      exact ih _ h

lemma explicit_pref_nodup (cfg : ModelsCfg) (pp : Option String) :
    (explicit_pref cfg pp).Nodup := by
  unfold explicit_pref
  split
  · split
    · exact List.nodup_singleton _
    · exact List.nodup_nil
  · exact List.nodup_nil

lemma with_cfg_pref_nodup (cfg : ModelsCfg) (base : List String) (h : base.Nodup) :
    (with_cfg_pref cfg base).Nodup := by
  unfold with_cfg_pref
  split
  · split
    · rename_i cp heq hc
      simp [List.nodup_append, h, hc.2.2.2]
    · exact h
  · exact h

/-- Claim C4: the resolved provider order is duplicate-free for every
configuration and explicit preference; a provider absent from the
configuration counts as enabled; and the documented example — explicit
preference `gemini`, configured preference `ollama`, everything enabled —
resolves to `[gemini, ollama, openai, deepseek]` (the default sequence
being ollama, gemini, openai, deepseek with already-present members
skipped).  -/
theorem claim_c4 :
    (∀ (cfg : ModelsCfg) (pp : Option String), (resolve_provider_order cfg pp).Nodup) ∧
    (∀ (cfg : ModelsCfg) (name : String), cfg.entries name = none →
       is_enabled cfg name = true) ∧
    resolve_provider_order ⟨fun _ => none, some ("ollama")⟩ (some ("gemini")) =
      ["gemini", "ollama", "openai", "deepseek"] := by
  refine ⟨?_, ?_, ?_⟩
  · intro cfg pp
    exact foldl_default_nodup cfg defaultOrder _
      (with_cfg_pref_nodup cfg _ (explicit_pref_nodup cfg pp))
  · intro cfg name h
    unfold is_enabled
    rw [h]
  · decide

/-- Witness for claim C4: a provider absent from the configuration is
enabled by default.  -/
theorem claim_c4_witness :
    (⟨fun _ => none, none⟩ : ModelsCfg).entries ("openai") = none ∧
    is_enabled ⟨fun _ => none, none⟩ ("openai") = true :=
  ⟨rfl, claim_c4.2.1 ⟨fun _ => none, none⟩ ("openai") rfl⟩

lemma tryProviders_all_fail (adapters : String → Except String String)
    (err : String → String) (hres : ∀ p, adapters p = Except.error (err p)) :
    ∀ (ps : List String) (errors : List (String × String)),
      tryProviders adapters ps errors =
        Except.error (aggregate_errorL (errors ++
          (ps.filter isKnown).map (fun p => (p, err p)))) := by
  intro ps
  induction ps with
  | nil => intro errors; simp [tryProviders]
  | cons p rest ih =>
    intro errors
    by_cases hk : isKnown p = true
    · unfold tryProviders
      rw [if_pos hk, hres p]
      show tryProviders adapters rest (errors ++ [(p, err p)]) = _
      rw [ih (errors ++ [(p, err p)]), List.filter_cons_of_pos hk]
      simp [List.append_assoc]
    · unfold tryProviders
      rw [if_neg hk, ih errors, List.filter_cons_of_neg (by simpa using hk)]

lemma error_report_contains (l : List (String × String)) (pe : String × String)
    (h : pe ∈ l) :
    ContainsSeg (error_lineL pe.1 pe.2) (error_reportL l) := by
  induction l with
  | nil => cases h
  | cons q rest ih =>
    rcases List.mem_cons.mp h with h | h
    · subst h
      cases rest with
      | nil => exact ⟨[], [], by simp [error_reportL]⟩
      | cons r rs =>
        exact ⟨[], '\n' :: error_reportL (r :: rs), by simp [error_reportL]⟩
    · obtain ⟨pre, post, hpp⟩ := ih h
      cases rest with
      | nil => cases h
      | cons r rs =>
        exact ⟨error_lineL q.1 q.2 ++ '\n' :: pre, post, by
          simp [error_reportL, hpp, List.append_assoc]⟩

lemma aggregate_contains_line (errors : List (String × String))
    (pe : String × String) (h : pe ∈ errors) :
    ContainsSeg (error_lineL pe.1 pe.2) (aggregate_errorL errors) := by
  obtain ⟨pre, post, hpp⟩ := error_report_contains errors pe h
  exact ⟨"All LLM providers failed.\n\nTried providers:\n".data ++ pre,
         post ++ ("\n\n".data ++ actionsGuidance), by
    simp [aggregate_errorL, hpp, List.append_assoc]⟩

lemma aggregate_contains_guidance (errors : List (String × String)) :
    ContainsSeg actionsGuidance (aggregate_errorL errors) :=
  ⟨"All LLM providers failed.\n\nTried providers:\n".data ++
     (error_reportL errors ++ "\n\n".data),
   [], by simp [aggregate_errorL, List.append_assoc]⟩

/-- Claim C5: when every provider fails, `generate_with_fallback` raises
one aggregate error whose message contains, for every known provider of
the resolved order, the line pairing that provider's name with its own
error message, together with the fixed remediation guidance — not merely
the last provider's error.  -/
theorem claim_c5 (cfg : ModelsCfg) (pp : Option String)
    (adapters : String → Except String String) (err : String → String)
    (hres : ∀ p, adapters p = Except.error (err p)) :
    ∃ msg : List Char,
      generate_with_fallback cfg pp adapters = Except.error msg ∧
      (∀ p ∈ resolve_provider_order cfg pp, isKnown p = true →
        ContainsSeg (error_lineL p (err p)) msg) ∧
      ContainsSeg actionsGuidance msg := by
  refine ⟨aggregate_errorL (((resolve_provider_order cfg pp).filter isKnown).map
      (fun p => (p, err p))), ?_, ?_, ?_⟩
  · unfold generate_with_fallback
    simpa using tryProviders_all_fail adapters err hres (resolve_provider_order cfg pp) []
  · intro p hp hk
    exact aggregate_contains_line _ (p, err p)
      (List.mem_map_of_mem _ (List.mem_filter.mpr ⟨hp, hk⟩))
  · exact aggregate_contains_guidance _

/-- Witness for claim C5 with the default configuration and adapters that
all fail.  -/
theorem claim_c5_witness :
    (∀ p : String, (fun q => (Except.error ("fail-" ++ q) : Except String String)) p =
       Except.error ("fail-" ++ p)) ∧
    (∃ msg : List Char,
      generate_with_fallback ⟨fun _ => none, none⟩ none
          (fun q => Except.error ("fail-" ++ q)) = Except.error msg ∧
      (∀ p ∈ resolve_provider_order ⟨fun _ => none, none⟩ none, isKnown p = true →
        ContainsSeg (error_lineL p ("fail-" ++ p)) msg) ∧
      ContainsSeg actionsGuidance msg) :=
  ⟨fun _ => rfl,
   claim_c5 ⟨fun _ => none, none⟩ none (fun q => Except.error ("fail-" ++ q))
     (fun q => "fail-" ++ q) (fun _ => rfl)⟩

/-- Claim C10: an unrecognised name in the resolved order (for example an
unknown explicitly-preferred provider) is skipped without raising and
without entering the error map: when every adapter fails, the aggregate
error is built from exactly the known providers of the order, so the
unknown name appears in none of its entries.  -/
theorem claim_c10 (cfg : ModelsCfg) (pp : Option String)
    (adapters : String → Except String String) (err : String → String) (u : String)
    (hres : ∀ p, adapters p = Except.error (err p))
    (_hu : u ∈ resolve_provider_order cfg pp) (hk : isKnown u = false) :
    generate_with_fallback cfg pp adapters =
      Except.error (aggregate_errorL
        (((resolve_provider_order cfg pp).filter isKnown).map
          (fun p => (p, err p)))) ∧
    (∀ pe ∈ ((resolve_provider_order cfg pp).filter isKnown).map
        (fun p => (p, err p)), pe.1 ≠ u) := by
  constructor
  · unfold generate_with_fallback
    simpa using tryProviders_all_fail adapters err hres (resolve_provider_order cfg pp) []
  · intro pe hpe
    obtain ⟨q, hq, rfl⟩ := List.mem_map.mp hpe
    have hqk : isKnown q = true := List.of_mem_filter hq
    intro hequ
    have hqu : q = u := hequ
    rw [hqu, hk] at hqk
    exact Bool.noConfusion hqk

/-- Witness for claim C10: with the unknown name `mistral` explicitly
preferred (it is in the resolved order, since absent providers count as
enabled) and every adapter failing, the aggregate error map carries only
the four known providers.  -/
theorem claim_c10_witness :
    ((∀ p : String, (fun q => (Except.error ("E-" ++ q) : Except String String)) p =
        Except.error ("E-" ++ p)) ∧
     "mistral" ∈ resolve_provider_order ⟨fun _ => none, none⟩ (some ("mistral")) ∧
     isKnown ("mistral") = false) ∧
    (generate_with_fallback ⟨fun _ => none, none⟩ (some ("mistral"))
        (fun q => Except.error ("E-" ++ q)) =
      Except.error (aggregate_errorL
        (((resolve_provider_order ⟨fun _ => none, none⟩ (some ("mistral"))).filter
            isKnown).map (fun p => (p, "E-" ++ p)))) ∧
     (∀ pe ∈ ((resolve_provider_order ⟨fun _ => none, none⟩ (some ("mistral"))).filter
          isKnown).map (fun p => (p, "E-" ++ p)), pe.1 ≠ "mistral")) := by
  refine ⟨⟨fun _ => rfl, ?_, rfl⟩, ?_⟩
  · decide
  · exact claim_c10 ⟨fun _ => none, none⟩ (some ("mistral"))
      (fun q => Except.error ("E-" ++ q)) (fun q => "E-" ++ q) ("mistral")
      (fun _ => rfl) (by decide) rfl
